import Mathlib

/-!
Payload adapter for a glib doubly linked list: a shallow embedding of
`src/UserDefined.c`.

* Records are modelled by value: a `myData` holds the `int number` and the
  character array `theString` points to. The functions that allocate or
  release records are embedded once more over an explicit heap (namespace
  `Mem`), and `CopyList_refines` relates the two embeddings.
* C `int` values are mathematical integers; the program only stores, copies and
  compares them, so no arithmetic can overflow.
* A computation that dereferences a null pointer, or a pointer whose pointee is
  not of the type it is read at, has no defined result in C: it is `none`.
* `malloc` is taken to succeed.
* The enumeration constants `LESS`, `EQUAL`, `GREATER`, `NOTEQUAL`, `INT`,
  `STR`, `SINGLESTR`, `SINGLEINT` are declared in `UserDefined.h`; their values
  are parameters (`Header`).
-/

namespace UserDefined

/-! ## Data model -/

/-- Enumeration constants declared in `UserDefined.h`: the four comparison
outcomes and the four comparison keys, as the C `int` values they stand for. -/
structure Header where
  LESS : Int
  EQUAL : Int
  GREATER : Int
  NOTEQUAL : Int
  INT : Int
  STR : Int
  SINGLESTR : Int
  SINGLEINT : Int
deriving DecidableEq, Repr

/-- The four comparison outcomes are four different values. -/
def Header.distinctResults (H : Header) : Prop :=
  H.LESS ≠ H.EQUAL ∧ H.LESS ≠ H.GREATER ∧ H.LESS ≠ H.NOTEQUAL ∧
  H.EQUAL ≠ H.GREATER ∧ H.EQUAL ≠ H.NOTEQUAL ∧ H.GREATER ≠ H.NOTEQUAL

instance (H : Header) : Decidable H.distinctResults := by
  unfold Header.distinctResults; infer_instance

/-- The four keys are four different values (they label the cases of one
`switch`, which C only accepts when the labels differ). -/
def Header.distinctKeys (H : Header) : Prop :=
  H.INT ≠ H.STR ∧ H.INT ≠ H.SINGLESTR ∧ H.INT ≠ H.SINGLEINT ∧
  H.STR ≠ H.SINGLESTR ∧ H.STR ≠ H.SINGLEINT ∧ H.SINGLESTR ≠ H.SINGLEINT

instance (H : Header) : Decidable H.distinctKeys := by
  unfold Header.distinctKeys; infer_instance

/-- One assignment of the enumeration constants in which `EQUAL` is `0`, the
value `FindInList` tests for and `g_list_sort` expects of equal items. Used to
instantiate the general results at concrete inputs. -/
def sampleHeader : Header :=
  { LESS := -1, EQUAL := 0, GREATER := 1, NOTEQUAL := 2,
    INT := 0, STR := 1, SINGLESTR := 2, SINGLEINT := 3 }

/-- A character array as `char *` sees it: the bytes stored from the pointer
on. The string ends before the first `0` byte; the end of the list stands for
the terminator when no `0` byte occurs. -/
abbrev CString := List Nat

/-- The text a character array denotes: its bytes before the terminator. -/
def cstr : CString → List Nat
  | [] => []
  | c :: cs => if c = 0 then [] else c :: cstr cs

/-- The bytes of an ASCII literal. -/
def ascii (s : String) : CString := s.data.map Char.toNat

/-- Record `struct myData_`: `int number; char * theString;`. -/
structure myData where
  number : Int
  theString : CString
deriving DecidableEq, Repr

/-- Type `node_p`: pointer to a `myData` record, `none` being `NULL`. -/
abbrev node_p := Option myData

/-- A `GList *`: the `data` fields of the nodes reached through `next`, in
that order. `NULL` is the empty list `[]`. -/
abbrev GList := List node_p

/-- A `const void *` argument, by what it points to. -/
inductive VoidPtr where
  | null
  | node (d : myData)
  | str (s : CString)
  | int (n : Int)
deriving DecidableEq, Repr

/-- A `node_p` passed where a `const void *` is expected. -/
def VoidPtr.ofNode : node_p → VoidPtr
  | none => .null
  | some d => .node d

/-- Reading a `const void *` through `node_p`. -/
def VoidPtr.derefNode : VoidPtr → Option myData
  | .node d => some d
  | _ => none

/-- Reading a `const void *` through `char *`. -/
def VoidPtr.derefStr : VoidPtr → Option CString
  | .str s => some s
  | _ => none

/-- Reading a `const void *` through `int *`. -/
def VoidPtr.derefInt : VoidPtr → Option Int
  | .int n => some n
  | _ => none

/-! ## Library functions used by the source -/

/-- Function `strcmp` of the C library: walks both arrays until the bytes
differ or the terminator is reached, and returns the difference of the two
bytes it stopped at. -/
def strcmp : CString → CString → Int
  | [], [] => 0
  | [], b :: _ => 0 - (b : Int)
  | a :: _, [] => (a : Int)
  | a :: as, b :: bs =>
    if a ≠ b then (a : Int) - (b : Int)
    else if a = 0 then 0
    else strcmp as bs

/-- Function `g_list_append` of glib: adds a node holding `data` after the
last node and returns the start of the list. -/
def g_list_append (list : GList) (data : node_p) : GList := list ++ [data]

/-! ## The functions of `UserDefined.c` -/

/-- Function `NewItem` (lines 118-123). -/
def NewItem (theNumber : Int) (theString : CString) : node_p :=
  some { number := theNumber, theString := theString }

/-- Function `CompareItems` (lines 210-218). -/
def CompareItems (H : Header) (item1_p item2_p : VoidPtr) : Option Int := do
  let node1 ← item1_p.derefNode
  let node2 ← item2_p.derefNode
  if node1.number < node2.number then
    pure H.LESS
  else if node1.number > node2.number then
    pure H.GREATER
  else
    pure H.EQUAL

/-- Function `CompareItemsWithKey` (lines 252-282). The `switch` is a chain of
tests on `key` in the order of its `case` labels. -/
def CompareItemsWithKey (H : Header) (item1_p item2_p : VoidPtr) (key : Int) :
    Option Int :=
  if key = H.INT then
    CompareItems H item1_p item2_p
  else if key = H.STR then do
    let node1 ← item1_p.derefNode
    let node2 ← item2_p.derefNode
    if strcmp node1.theString node2.theString = 0 then pure H.EQUAL
    else pure H.NOTEQUAL
  else if key = H.SINGLESTR then do
    let node1 ← item1_p.derefNode
    let string ← item2_p.derefStr
    if strcmp node1.theString string = 0 then pure H.EQUAL
    else pure H.NOTEQUAL
  else if key = H.SINGLEINT then do
    let node1 ← item1_p.derefNode
    let integer ← item2_p.derefInt
    if node1.number = integer then pure H.EQUAL
    else pure H.NOTEQUAL
  else
    pure H.NOTEQUAL

/-- The loop of `CopyList` (lines 345-349): `l` is the part of the input still
to visit, `theCopy` the list built so far. -/
def CopyList.loop : GList → GList → Option GList
  | [], theCopy => some theCopy
  | none :: _, _ => none
  | some node :: next, theCopy =>
    CopyList.loop next (g_list_append theCopy (NewItem node.number node.theString))

/-- Function `CopyList` (lines 340-352). -/
def CopyList (inputList : GList) : Option GList :=
  if inputList ≠ [] then CopyList.loop inputList [] else some []

/-- Function `FindInList` (lines 381-390). The node returned is given as the
list that starts at it; `[]` is `NULL`. -/
def FindInList (H : Header) : GList → VoidPtr → Int → Option GList
  | [], _, _ => some []
  | node :: next, value_p, key => do
    let r ← CompareItemsWithKey H (VoidPtr.ofNode node) value_p key
    if r = 0 then pure (node :: next)
    else FindInList H next value_p key

/-- The kind of second operand a key makes `CompareItemsWithKey` read: a
record under `INT` and `STR`, a character array under `SINGLESTR`, an integer
under `SINGLEINT`, and nothing at all under any other key. -/
def VoidPtr.fitsKey (H : Header) (key : Int) (value_p : VoidPtr) : Prop :=
  if key = H.INT ∨ key = H.STR then (value_p.derefNode).isSome
  else if key = H.SINGLESTR then (value_p.derefStr).isSome
  else if key = H.SINGLEINT then (value_p.derefInt).isSome
  else True

instance (H : Header) (key : Int) (value_p : VoidPtr) :
    Decidable (value_p.fitsKey H key) := by
  unfold VoidPtr.fitsKey; infer_instance

/-- The list of the specification's search example:
`[(1,"a"), (2,"b"), (2,"c")]`. -/
def exampleList : GList :=
  [NewItem 1 (ascii "a"), NewItem 2 (ascii "b"), NewItem 2 (ascii "c")]

/-! ## Printing -/

/-- Value of `EXIT_SUCCESS` in `<stdlib.h>`. -/
def EXIT_SUCCESS : Int := 0

/-- Value of `EXIT_FAILURE` in `<stdlib.h>`. -/
def EXIT_FAILURE : Int := 1

/-- Conversion `%d` of `printf`: the decimal digits of the magnitude, most
significant first, after a minus sign (byte 45) when the integer is negative. -/
def fmt_d (n : Int) : List Nat :=
  if n < 0 then 45 :: (Nat.toDigits 10 n.natAbs).map Char.toNat
  else (Nat.toDigits 10 n.natAbs).map Char.toNat

/-- Bytes written by `printf("%d %s\n", number, theString)`: the integer in
decimal, a space (byte 32), the text of the array, a newline (byte 10). -/
def printf_d_s (number : Int) (theString : CString) : List Nat :=
  fmt_d number ++ [32] ++ cstr theString ++ [10]

/-- Function `PrintItem` (lines 54-61), on the `data` pointer of a list node:
the value returned and the bytes written to standard output. -/
def PrintItem (data_p : node_p) : Int × List Nat :=
  match data_p with
  | some data => (EXIT_SUCCESS, printf_d_s data.number data.theString)
  | none => (EXIT_FAILURE, [])

/-- The loop of `PrintList` (lines 87-92): `l` is the part of the list still
to visit, `out` the bytes written so far. -/
def PrintList.loop : GList → List Nat → Int × List Nat
  | [], out => (EXIT_SUCCESS, out)
  | data :: next, out =>
    if (PrintItem data).1 = EXIT_FAILURE then (EXIT_FAILURE, out ++ (PrintItem data).2)
    else PrintList.loop next (out ++ (PrintItem data).2)

/-- Function `PrintList` (lines 84-95): the value returned and the bytes
written to standard output. -/
def PrintList (myList_p : GList) : Int × List Nat :=
  if myList_p ≠ [] then PrintList.loop myList_p [] else (EXIT_FAILURE, [])

/-- The lines `PrintItem` writes for the nodes of a list, one after the
other. -/
def renderedLines (S : GList) : List Nat :=
  (S.map (fun data => (PrintItem data).2)).flatten

/-- The number a list of decimal digit bytes denotes, most significant digit
first. -/
def decimalValue (ds : List Nat) : Nat :=
  ds.foldl (fun v d => 10 * v + (d - 48)) 0

/-! ## Memory

The functions that allocate and release records are embedded a second time
over an explicit heap, where a payload is an address and releasing is an
effect. Blocks are never reused: `malloc` hands out an address that no block
had before. The glib list is the sequence of the `data` addresses of its
nodes. Character arrays are neither written nor released by any function of
the file; a record holds the address of its array. -/

/-- An address; `0` is `NULL`. -/
abbrev Ptr := Nat

/-- A `struct myData_` as it lies in memory: the integer and the value of the
`char *` field. -/
structure Record where
  number : Int
  theString : Ptr
deriving DecidableEq, Repr

/-- A block obtained from `malloc` for one record, and whether `free` has been
called on it. -/
structure Block where
  contents : Record
  released : Bool
deriving DecidableEq, Repr

/-- The heap: the block at address `a` is `blocks[a - 1]`; `freed` lists the
addresses `free` was called on, oldest first. -/
structure Heap where
  blocks : List Block
  freed : List Ptr
deriving DecidableEq, Repr

/-- Reading the record at an address; `none` when the address is `NULL`, is
no block, or is a released block. -/
def Heap.read (h : Heap) (p : Ptr) : Option Record :=
  if p = 0 then none
  else
    match h.blocks[p - 1]? with
    | some b => if b.released then none else some b.contents
    | none => none

/-- The address is that of a block that has not been released. -/
def Heap.live (h : Heap) (p : Ptr) : Prop := (h.read p).isSome

instance (h : Heap) (p : Ptr) : Decidable (h.live p) := by
  unfold Heap.live; infer_instance

/-- Call `malloc(sizeof(struct myData_))` followed by the stores of the two
fields: a new block at the next address. -/
def Heap.alloc (h : Heap) (r : Record) : Ptr × Heap :=
  (h.blocks.length + 1,
    { blocks := h.blocks ++ [{ contents := r, released := false }], freed := h.freed })

/-- Function `free` of the C library: nothing on `NULL`, releases a block
that is not yet released, and has no defined result otherwise. -/
def Heap.free (h : Heap) (p : Ptr) : Option Heap :=
  if p = 0 then some h
  else
    match h.blocks[p - 1]? with
    | some b =>
      if b.released then none
      else some { blocks := h.blocks.set (p - 1) { contents := b.contents, released := true },
                  freed := h.freed ++ [p] }
    | none => none

namespace Mem

/-- Function `NewItem` (lines 118-123) on the heap: the address of the new
record and the heap after the call. -/
def NewItem (h : Heap) (theNumber : Int) (theString : Ptr) : Ptr × Heap :=
  h.alloc { number := theNumber, theString := theString }

/-- Function `FreeItem` (lines 144-150): the value returned and the heap
after the call. -/
def FreeItem (h : Heap) (data_p : Ptr) : Option (Int × Heap) :=
  if data_p ≠ 0 then do
    let h1 ← h.free data_p
    pure (EXIT_SUCCESS, h1)
  else
    pure (EXIT_FAILURE, h)

/-- The loop of `DestroyList` (lines 174-179) from node `l` on. -/
def DestroyList.loop (h : Heap) : List Ptr → Option (Int × Heap)
  | [] => some (EXIT_SUCCESS, h)
  | node :: next => do
    let (r, h1) ← FreeItem h node
    if r = EXIT_FAILURE then pure (EXIT_FAILURE, h1)
    else DestroyList.loop h1 next

/-- Function `DestroyList` (lines 171-183). -/
def DestroyList (h : Heap) (theList_p : List Ptr) : Option (Int × Heap) :=
  if theList_p ≠ [] then DestroyList.loop h theList_p else some (EXIT_FAILURE, h)

/-- Function `CopyItems` (lines 308-317): the pointer returned and the heap
after the call. -/
def CopyItems (h : Heap) (source_p : Ptr) : Option (Ptr × Heap) :=
  if source_p ≠ 0 then do
    let nodeOriginal ← h.read source_p
    pure (h.alloc { number := nodeOriginal.number, theString := nodeOriginal.theString })
  else
    pure (0, h)

/-- The loop of `CopyList` (lines 345-349) on the heap. -/
def CopyList.loop (h : Heap) : List Ptr → List Ptr → Option (List Ptr × Heap)
  | [], theCopy => some (theCopy, h)
  | node :: next, theCopy => do
    let data ← h.read node
    let (aNode_p, h1) := NewItem h data.number data.theString
    CopyList.loop h1 next (theCopy ++ [aNode_p])

/-- Function `CopyList` (lines 340-352) on the heap. -/
def CopyList (h : Heap) (inputList : List Ptr) : Option (List Ptr × Heap) :=
  if inputList ≠ [] then CopyList.loop h inputList [] else some ([], h)

end Mem

/-- The `data` addresses of the nodes that come before the first node whose
`data` is `NULL` (of all nodes when there is none). -/
def payloadsBeforeNull (S : List Ptr) : List Ptr :=
  S.takeWhile (fun p => decide (p ≠ 0))

/-- The `data` addresses from the first node whose `data` is `NULL` on (none
when there is no such node). -/
def payloadsFromNull (S : List Ptr) : List Ptr :=
  S.dropWhile (fun p => decide (p ≠ 0))

/-- The `data` addresses of a list that are not `NULL`. -/
def payloads (S : List Ptr) : List Ptr :=
  S.filter (fun p => decide (p ≠ 0))

/-- The payload an address stands for in the by-value embedding, the text of
each character array being given by `text`. -/
def Heap.view (text : Ptr → CString) (h : Heap) (p : Ptr) : node_p :=
  (h.read p).map (fun r => { number := r.number, theString := text r.theString })

/-- A heap holding the records `(1, x)` and `(5, y)` at the addresses `1` and
`2`, with `x` and `y` character arrays at the addresses `100` and `200`. -/
def exampleHeap : Heap :=
  { blocks := [{ contents := { number := 1, theString := 100 }, released := false },
               { contents := { number := 5, theString := 200 }, released := false }],
    freed := [] }

/-! ## Auxiliary facts -/

theorem cstr_nil : cstr [] = [] := rfl

theorem cstr_cons (c : Nat) (cs : CString) :
    cstr (c :: cs) = if c = 0 then [] else c :: cstr cs := rfl

/-- Function `strcmp` answers `0` exactly on arrays that denote the same
text. -/
theorem strcmp_eq_zero_iff (s t : CString) : strcmp s t = 0 ↔ cstr s = cstr t := by
  induction s generalizing t with
  | nil =>
    cases t with
    | nil => simp [strcmp, cstr_nil]
    | cons b bs =>
      by_cases hb : b = 0
      · simp [strcmp, cstr_nil, cstr_cons, hb]
      · simp [strcmp, cstr_nil, cstr_cons, hb]
  | cons a as ih =>
    cases t with
    | nil =>
      by_cases ha : a = 0
      · simp [strcmp, cstr_nil, cstr_cons, ha]
      · simp [strcmp, cstr_nil, cstr_cons, ha]
    | cons b bs =>
      by_cases hab : a = b
      · subst hab
        by_cases ha : a = 0
        · simp [strcmp, cstr_cons, ha]
        · simp [strcmp, cstr_cons, ha, ih]
      · have hsub : (a : Int) - (b : Int) ≠ 0 := by
          intro h
          apply hab
          omega
        by_cases ha : a = 0
        · have hb : b ≠ 0 := fun h => hab (by rw [ha, h])
          have hb0 : ¬ 0 = b := fun h => hb h.symm
          simp [strcmp, cstr_cons, hsub, ha, hb, hb0]
        · by_cases hb : b = 0
          · simp [strcmp, cstr_cons, hab, hsub, ha, hb]
          · simp [strcmp, cstr_cons, hab, hsub, ha, hb]

/-- An array without a `0` byte denotes all of its bytes. -/
theorem cstr_eq_self (s : CString) (h : 0 ∉ s) : cstr s = s := by
  induction s with
  | nil => rfl
  | cons c cs ih =>
    have hc : c ≠ 0 := fun hc => h (by simp [hc])
    have hcs : 0 ∉ cs := fun hcs => h (List.mem_cons_of_mem _ hcs)
    simp [cstr_cons, hc, ih hcs]

theorem derefNode_eq_some (v : VoidPtr) (b : myData) (h : v.derefNode = some b) :
    v = .node b := by
  cases v <;> simp [VoidPtr.derefNode] at h
  rw [h]

theorem derefStr_eq_some (v : VoidPtr) (t : CString) (h : v.derefStr = some t) :
    v = .str t := by
  cases v <;> simp [VoidPtr.derefStr] at h
  rw [h]

theorem derefInt_eq_some (v : VoidPtr) (n : Int) (h : v.derefInt = some n) :
    v = .int n := by
  cases v <;> simp [VoidPtr.derefInt] at h
  rw [h]

/-- The comparison has a defined result on a payload and a probe of the kind
the key reads. -/
theorem CompareItemsWithKey_defined (H : Header) (d : myData) (v : VoidPtr) (key : Int)
    (hfit : v.fitsKey H key) :
    (CompareItemsWithKey H (.node d) v key).isSome := by
  unfold VoidPtr.fitsKey at hfit
  unfold CompareItemsWithKey
  by_cases h1 : key = H.INT
  · rw [if_pos (Or.inl h1)] at hfit
    obtain ⟨b, hb⟩ := Option.isSome_iff_exists.mp hfit
    rw [if_pos h1, derefNode_eq_some v b hb]
    simp only [CompareItems, VoidPtr.derefNode, Option.bind_eq_bind, Option.some_bind,
      Option.pure_def]
    split_ifs <;> rfl
  · rw [if_neg h1]
    by_cases h2 : key = H.STR
    · rw [if_pos (Or.inr h2)] at hfit
      obtain ⟨b, hb⟩ := Option.isSome_iff_exists.mp hfit
      rw [if_pos h2, derefNode_eq_some v b hb]
      simp only [VoidPtr.derefNode, Option.bind_eq_bind, Option.some_bind,
        Option.pure_def]
      split_ifs <;> rfl
    · rw [if_neg (not_or.mpr ⟨h1, h2⟩)] at hfit
      rw [if_neg h2]
      by_cases h3 : key = H.SINGLESTR
      · rw [if_pos h3] at hfit
        obtain ⟨t, ht⟩ := Option.isSome_iff_exists.mp hfit
        rw [if_pos h3, derefStr_eq_some v t ht]
        simp only [VoidPtr.derefNode, VoidPtr.derefStr, Option.bind_eq_bind,
          Option.some_bind, Option.pure_def]
        split_ifs <;> rfl
      · rw [if_neg h3] at hfit
        rw [if_neg h3]
        by_cases h4 : key = H.SINGLEINT
        · rw [if_pos h4] at hfit
          obtain ⟨n, hn⟩ := Option.isSome_iff_exists.mp hfit
          rw [if_pos h4, derefInt_eq_some v n hn]
          simp only [VoidPtr.derefNode, VoidPtr.derefInt, Option.bind_eq_bind,
            Option.some_bind, Option.pure_def]
          split_ifs <;> rfl
        · rw [if_neg h4]
          rfl

/-- On a list whose nodes all hold a payload, searched with a probe of the
kind the key reads, every comparison of the scan has a defined result. -/
theorem CompareItemsWithKey_defined_on (H : Header) (S : GList) (v : VoidPtr) (key : Int)
    (hS : ∀ x ∈ S, x ≠ none) (hfit : v.fitsKey H key) :
    ∀ x ∈ S, (CompareItemsWithKey H (VoidPtr.ofNode x) v key).isSome := by
  intro x hx
  cases x with
  | none => exact absurd rfl (hS none hx)
  | some d => exact CompareItemsWithKey_defined H d v key hfit

theorem CompareItems_node (H : Header) (a b : myData) :
    CompareItems H (.node a) (.node b) =
      some (if a.number < b.number then H.LESS
            else if a.number > b.number then H.GREATER else H.EQUAL) := by
  simp only [CompareItems, VoidPtr.derefNode, Option.bind_eq_bind, Option.some_bind,
    Option.pure_def]
  split_ifs <;> rfl

theorem CopyList_loop_eq (S theCopy : GList) (hS : ∀ x ∈ S, x ≠ none) :
    CopyList.loop S theCopy = some (theCopy ++ S) := by
  induction S generalizing theCopy with
  | nil => simp [CopyList.loop]
  | cons x xs ih =>
    cases x with
    | none => exact absurd rfl (hS none (List.mem_cons_self _ _))
    | some node =>
      have hxs : ∀ y ∈ xs, y ≠ none := fun y hy => hS y (List.mem_cons_of_mem _ hy)
      simp [CopyList.loop, g_list_append, NewItem, ih _ hxs]

theorem CopyList_eq (S : GList) (hS : ∀ x ∈ S, x ≠ none) : CopyList S = some S := by
  unfold CopyList
  split_ifs with h
  · simpa using CopyList_loop_eq S [] hS
  · simp only [ne_eq, not_not] at h
    rw [h]

theorem FindInList_nil (H : Header) (v : VoidPtr) (key : Int) :
    FindInList H [] v key = some [] := rfl

theorem FindInList_cons (H : Header) (x : node_p) (xs : GList) (v : VoidPtr) (key r : Int)
    (hr : CompareItemsWithKey H (VoidPtr.ofNode x) v key = some r) :
    FindInList H (x :: xs) v key =
      if r = 0 then some (x :: xs) else FindInList H xs v key := by
  simp only [FindInList, hr, Option.bind_eq_bind, Option.some_bind, Option.pure_def]

/-- When the comparison is defined on every element, the search returns the
first node comparing to `0`. -/
theorem FindInList_drop (H : Header) (S : GList) (v : VoidPtr) (key : Int)
    (hdef : ∀ x ∈ S, (CompareItemsWithKey H (VoidPtr.ofNode x) v key).isSome)
    (i : Nat) (hi : i < S.length)
    (heq : CompareItemsWithKey H (VoidPtr.ofNode S[i]) v key = some 0)
    (hmin : ∀ (j : Nat) (hj : j < S.length), j < i →
      CompareItemsWithKey H (VoidPtr.ofNode S[j]) v key ≠ some 0) :
    FindInList H S v key = some (S.drop i) := by
  induction S generalizing i with
  | nil => simp at hi
  | cons x xs ih =>
    cases i with
    | zero =>
      have hx : CompareItemsWithKey H (VoidPtr.ofNode x) v key = some 0 := by simpa using heq
      rw [FindInList_cons H x xs v key 0 hx]
      simp
    | succ k =>
      obtain ⟨r, hr⟩ := Option.isSome_iff_exists.mp (hdef x (List.mem_cons_self _ _))
      have hr0 : r ≠ 0 := by
        intro h
        have h0 := hmin 0 (by simp) (Nat.succ_pos k)
        apply h0
        simpa [h] using hr
      rw [FindInList_cons H x xs v key r hr, if_neg hr0]
      have hk : k < xs.length := by simpa using hi
      have hxs : ∀ y ∈ xs, (CompareItemsWithKey H (VoidPtr.ofNode y) v key).isSome :=
        fun y hy => hdef y (List.mem_cons_of_mem _ hy)
      have := ih hxs k hk (by simpa using heq) (fun j hj hjk => by
        have := hmin (j + 1) (by simpa using hj) (by omega)
        simpa using this)
      simpa using this

theorem FindInList_null_iff (H : Header) (S : GList) (v : VoidPtr) (key : Int)
    (hdef : ∀ x ∈ S, (CompareItemsWithKey H (VoidPtr.ofNode x) v key).isSome) :
    FindInList H S v key = some [] ↔
      ∀ x ∈ S, CompareItemsWithKey H (VoidPtr.ofNode x) v key ≠ some 0 := by
  induction S with
  | nil => simp [FindInList_nil]
  | cons x xs ih =>
    obtain ⟨r, hr⟩ := Option.isSome_iff_exists.mp (hdef x (List.mem_cons_self _ _))
    have hxs : ∀ y ∈ xs, (CompareItemsWithKey H (VoidPtr.ofNode y) v key).isSome :=
      fun y hy => hdef y (List.mem_cons_of_mem _ hy)
    rw [FindInList_cons H x xs v key r hr]
    by_cases hr0 : r = 0
    · subst hr0
      simp [hr]
    · rw [if_neg hr0, ih hxs]
      simp [hr, hr0]

theorem FindInList_isSome (H : Header) (S : GList) (v : VoidPtr) (key : Int)
    (hdef : ∀ x ∈ S, (CompareItemsWithKey H (VoidPtr.ofNode x) v key).isSome) :
    (FindInList H S v key).isSome := by
  induction S with
  | nil => simp [FindInList_nil]
  | cons x xs ih =>
    obtain ⟨r, hr⟩ := Option.isSome_iff_exists.mp (hdef x (List.mem_cons_self _ _))
    rw [FindInList_cons H x xs v key r hr]
    split_ifs
    · rfl
    · exact ih (fun y hy => hdef y (List.mem_cons_of_mem _ hy))

theorem CompareItemsWithKey_STR (H : Header) (hk : H.distinctKeys) (a b : myData) :
    CompareItemsWithKey H (.node a) (.node b) H.STR =
      some (if strcmp a.theString b.theString = 0 then H.EQUAL else H.NOTEQUAL) := by
  obtain ⟨h1, -, -, -, -, -⟩ := hk
  simp only [CompareItemsWithKey, if_neg (Ne.symm h1), if_true, VoidPtr.derefNode,
    Option.bind_eq_bind, Option.some_bind, Option.pure_def]
  split_ifs <;> rfl

theorem CompareItemsWithKey_SINGLESTR (H : Header) (hk : H.distinctKeys) (a : myData)
    (t : CString) :
    CompareItemsWithKey H (.node a) (.str t) H.SINGLESTR =
      some (if strcmp a.theString t = 0 then H.EQUAL else H.NOTEQUAL) := by
  obtain ⟨-, h2, -, h4, -, -⟩ := hk
  simp only [CompareItemsWithKey, if_neg (Ne.symm h2), if_neg (Ne.symm h4), if_true,
    VoidPtr.derefNode, VoidPtr.derefStr, Option.bind_eq_bind, Option.some_bind,
    Option.pure_def]
  split_ifs <;> rfl

theorem CompareItemsWithKey_SINGLEINT (H : Header) (hk : H.distinctKeys) (a : myData)
    (n : Int) :
    CompareItemsWithKey H (.node a) (.int n) H.SINGLEINT =
      some (if a.number = n then H.EQUAL else H.NOTEQUAL) := by
  obtain ⟨-, -, h3, -, h5, h6⟩ := hk
  simp only [CompareItemsWithKey, if_neg (Ne.symm h3), if_neg (Ne.symm h5),
    if_neg (Ne.symm h6), if_true, VoidPtr.derefNode, VoidPtr.derefInt,
    Option.bind_eq_bind, Option.some_bind, Option.pure_def]
  split_ifs <;> rfl

theorem CompareItemsWithKey_other (H : Header) (a b : VoidPtr) (key : Int)
    (hkey : key ≠ H.INT ∧ key ≠ H.STR ∧ key ≠ H.SINGLESTR ∧ key ≠ H.SINGLEINT) :
    CompareItemsWithKey H a b key = some H.NOTEQUAL := by
  obtain ⟨h1, h2, h3, h4⟩ := hkey
  simp only [CompareItemsWithKey, if_neg h1, if_neg h2, if_neg h3, if_neg h4]
  rfl

theorem FindInList_none_match (H : Header) (S : GList) (v : VoidPtr) (key r : Int)
    (hr : r ≠ 0)
    (hall : ∀ x ∈ S, CompareItemsWithKey H (VoidPtr.ofNode x) v key = some r) :
    FindInList H S v key = some [] := by
  induction S with
  | nil => rfl
  | cons x xs ih =>
    rw [FindInList_cons H x xs v key r (hall x (List.mem_cons_self _ _)), if_neg hr]
    exact ih (fun y hy => hall y (List.mem_cons_of_mem _ hy))

/-! ## Facts about printing -/

theorem digitChar_toNat (k : Nat) (hk : k < 10) :
    (Nat.digitChar k).toNat = 48 + k := by
  interval_cases k <;> rfl

theorem toDigitsCore_value (fuel n : Nat) (ds : List Char) (h : n < fuel) :
    ((Nat.toDigitsCore 10 fuel n ds).map Char.toNat).foldl (fun v d => 10 * v + (d - 48)) 0 =
      (ds.map Char.toNat).foldl (fun v d => 10 * v + (d - 48)) n := by
  induction fuel generalizing n ds with
  | zero => omega
  | succ fuel ih =>
    have hd : (Nat.digitChar (n % 10)).toNat = 48 + n % 10 :=
      digitChar_toNat _ (Nat.mod_lt _ (by decide))
    simp only [Nat.toDigitsCore]
    split_ifs with h0
    · simp only [List.map_cons, List.foldl_cons, hd]
      congr 1
      omega
    · rw [ih (n / 10) _ (by omega)]
      simp only [List.map_cons, List.foldl_cons, hd]
      congr 1
      omega

theorem toDigitsCore_digits (fuel n : Nat) (ds : List Char)
    (hds : ∀ c ∈ ds, 48 ≤ c.toNat ∧ c.toNat ≤ 57) :
    ∀ c ∈ Nat.toDigitsCore 10 fuel n ds, 48 ≤ c.toNat ∧ c.toNat ≤ 57 := by
  induction fuel generalizing n ds with
  | zero => simpa [Nat.toDigitsCore] using hds
  | succ fuel ih =>
    have hlt : n % 10 < 10 := Nat.mod_lt _ (by decide)
    have hd : (Nat.digitChar (n % 10)).toNat = 48 + n % 10 := digitChar_toNat _ hlt
    have hcons : ∀ c ∈ Nat.digitChar (n % 10) :: ds, 48 ≤ c.toNat ∧ c.toNat ≤ 57 := by
      intro c hc
      rcases List.mem_cons.mp hc with rfl | hc
      · rw [hd]; omega
      · exact hds c hc
    simp only [Nat.toDigitsCore]
    split_ifs with h0
    · exact hcons
    · exact ih _ _ hcons

/-- The digits written for a natural number denote that number. -/
theorem decimalValue_toDigits (m : Nat) :
    decimalValue ((Nat.toDigits 10 m).map Char.toNat) = m := by
  unfold decimalValue Nat.toDigits
  rw [toDigitsCore_value (m + 1) m [] (Nat.lt_succ_self m)]
  rfl

/-- The digits written for a natural number are the bytes `0` to `9`. -/
theorem toDigits_digits (m : Nat) :
    ∀ d ∈ (Nat.toDigits 10 m).map Char.toNat, 48 ≤ d ∧ d ≤ 57 := by
  intro d hd
  obtain ⟨c, hc, rfl⟩ := List.mem_map.mp hd
  exact toDigitsCore_digits (m + 1) m [] (by simp) c hc

theorem fmt_d_no_newline (n : Int) : 10 ∉ fmt_d n := by
  unfold fmt_d
  intro h
  split_ifs at h
  · rcases List.mem_cons.mp h with h | h
    · omega
    · have := toDigits_digits _ _ h
      omega
  · have := toDigits_digits _ _ h
    omega

theorem PrintList_loop_eq (S : GList) (out : List Nat) :
    PrintList.loop S out =
      (if none ∈ S then EXIT_FAILURE else EXIT_SUCCESS,
        out ++ renderedLines (S.takeWhile (fun data => data.isSome))) := by
  induction S generalizing out with
  | nil => simp [PrintList.loop, renderedLines]
  | cons x xs ih =>
    cases x with
    | none => simp [PrintList.loop, PrintItem, renderedLines]
    | some d =>
      have hne : ¬ EXIT_SUCCESS = EXIT_FAILURE := by decide
      simp [PrintList.loop, PrintItem, renderedLines, hne, ih, List.append_assoc]

/-! ## Facts about searching -/

theorem CompareItems_le_iff (H : Header) (hd : H.distinctResults) (a b : myData) :
    (CompareItems H (.node a) (.node b) = some H.LESS ∨
      CompareItems H (.node a) (.node b) = some H.EQUAL) ↔ a.number ≤ b.number := by
  obtain ⟨h1, h2, -, h4, -, -⟩ := hd
  rw [CompareItems_node]
  split_ifs with hlt hgt
  · simp only [true_or, true_iff]
    omega
  · simp only [Option.some.injEq]
    constructor
    · rintro (h | h)
      · exact absurd h.symm h2
      · exact absurd h.symm h4
    · intro h
      omega
  · simp only [or_true, true_iff]
    omega

theorem CompareItems_eq_iff (H : Header) (hd : H.distinctResults) (a b : myData) :
    CompareItems H (.node a) (.node b) = some H.EQUAL ↔ a.number = b.number := by
  obtain ⟨h1, -, -, h4, -, -⟩ := hd
  rw [CompareItems_node]
  split_ifs with hlt hgt
  · simp only [Option.some.injEq]
    exact ⟨fun h => absurd h h1, fun h => by omega⟩
  · simp only [Option.some.injEq]
    exact ⟨fun h => absurd h.symm h4, fun h => by omega⟩
  · simp only [true_iff]
    omega

/-- A node returned by the search is a node of the list searched. -/
theorem FindInList_suffix (H : Header) (S : GList) (v : VoidPtr) (key : Int) (r : GList)
    (hr : FindInList H S v key = some r) (hne : r ≠ []) :
    ∃ i : Nat, i < S.length ∧ r = S.drop i := by
  induction S with
  | nil =>
    rw [FindInList_nil] at hr
    exact absurd (Option.some.inj hr).symm hne
  | cons x xs ih =>
    cases hc : CompareItemsWithKey H (VoidPtr.ofNode x) v key with
    | none => simp [FindInList, hc] at hr
    | some c =>
      rw [FindInList_cons H x xs v key c hc] at hr
      split_ifs at hr with h0
      · exact ⟨0, by simp, by simpa using (Option.some.inj hr).symm⟩
      · obtain ⟨i, hi, hri⟩ := ih hr
        exact ⟨i + 1, by simpa using hi, by simpa using hri⟩

/-- Two searches of one list agree when, node by node, both comparisons have
a result and are `0` together. -/
theorem FindInList_congr (H : Header) (S : GList) (v w : VoidPtr) (key key2 : Int)
    (h : ∀ x ∈ S, ∃ r1 r2 : Int,
      CompareItemsWithKey H (VoidPtr.ofNode x) v key = some r1 ∧
      CompareItemsWithKey H (VoidPtr.ofNode x) w key2 = some r2 ∧ (r1 = 0 ↔ r2 = 0)) :
    FindInList H S v key = FindInList H S w key2 ∧ (FindInList H S v key).isSome := by
  induction S with
  | nil => exact ⟨rfl, rfl⟩
  | cons x xs ih =>
    obtain ⟨r1, r2, h1, h2, h12⟩ := h x (List.mem_cons_self _ _)
    have ih2 := ih (fun y hy => h y (List.mem_cons_of_mem _ hy))
    rw [FindInList_cons H x xs v key r1 h1, FindInList_cons H x xs w key2 r2 h2]
    by_cases h0 : r1 = 0
    · rw [if_pos h0, if_pos (h12.mp h0)]
      exact ⟨rfl, rfl⟩
    · rw [if_neg h0, if_neg (fun h => h0 (h12.mpr h))]
      exact ih2

/-! ## Facts about the heap -/

theorem read_zero (h : Heap) : h.read 0 = none := by
  simp [Heap.read]

theorem read_eq_some_iff (h : Heap) (p : Nat) (r : Record) :
    h.read p = some r ↔
      p ≠ 0 ∧ h.blocks[p - 1]? = some { contents := r, released := false } := by
  unfold Heap.read
  by_cases hp : p = 0
  · simp [hp]
  · rw [if_neg hp]
    cases hb : h.blocks[p - 1]? with
    | none => simp [hp]
    | some b =>
      obtain ⟨c, rel⟩ := b
      cases rel <;> simp [hp]

theorem read_bounds (h : Heap) (p : Nat) (r : Record) (hr : h.read p = some r) :
    0 < p ∧ p ≤ h.blocks.length := by
  obtain ⟨hp, hb⟩ := (read_eq_some_iff h p r).mp hr
  have hlt : p - 1 < h.blocks.length := by
    by_contra hge
    rw [List.getElem?_eq_none (by omega)] at hb
    exact absurd hb (by simp)
  omega

theorem read_none_of_gt (h : Heap) (p : Nat) (hp : h.blocks.length < p) :
    h.read p = none := by
  cases hr : h.read p with
  | none => rfl
  | some r =>
    have := read_bounds h p r hr
    omega

theorem live_bounds (h : Heap) (p : Nat) (hp : h.live p) :
    0 < p ∧ p ≤ h.blocks.length := by
  obtain ⟨r, hr⟩ := Option.isSome_iff_exists.mp hp
  exact read_bounds h p r hr

theorem alloc_fst (h : Heap) (r : Record) : (h.alloc r).1 = h.blocks.length + 1 := rfl

theorem alloc_length (h : Heap) (r : Record) :
    (h.alloc r).2.blocks.length = h.blocks.length + 1 := by
  simp [Heap.alloc]

theorem alloc_freed (h : Heap) (r : Record) : (h.alloc r).2.freed = h.freed := rfl

theorem read_alloc_new (h : Heap) (r : Record) :
    (h.alloc r).2.read (h.blocks.length + 1) = some r := by
  rw [read_eq_some_iff]
  refine ⟨by omega, ?_⟩
  simp [Heap.alloc]

theorem read_alloc_old (h : Heap) (r : Record) (q : Nat) (hq : q ≤ h.blocks.length) :
    (h.alloc r).2.read q = h.read q := by
  unfold Heap.read
  by_cases h0 : q = 0
  · simp [h0]
  · rw [if_neg h0, if_neg h0]
    have hlt : q - 1 < h.blocks.length := by omega
    have : (h.alloc r).2.blocks[q - 1]? = h.blocks[q - 1]? := by
      simp only [Heap.alloc]
      rw [List.getElem?_append_left hlt]
    rw [this]

/-- Releasing a live block: it is recorded, the block reads as released, and
every other address reads as before. -/
theorem free_live (h : Heap) (p : Nat) (hp : h.live p) :
    ∃ h1 : Heap, h.free p = some h1 ∧ h1.freed = h.freed ++ [p] ∧
      h1.blocks.length = h.blocks.length ∧ h1.read p = none ∧
      ∀ q : Nat, q ≠ p → h1.read q = h.read q := by
  obtain ⟨r, hr⟩ := Option.isSome_iff_exists.mp hp
  obtain ⟨hp0, hb⟩ := (read_eq_some_iff h p r).mp hr
  have hlt : p - 1 < h.blocks.length := by
    have := read_bounds h p r hr
    omega
  refine ⟨{ blocks := h.blocks.set (p - 1) { contents := r, released := true },
            freed := h.freed ++ [p] }, ?_, rfl, by simp, ?_, ?_⟩
  · simp [Heap.free, hp0, hb]
  · simp [Heap.read, hp0, List.getElem?_set, hlt]
  · intro q hq
    unfold Heap.read
    by_cases h0 : q = 0
    · simp [h0]
    · rw [if_neg h0, if_neg h0]
      have hne : p - 1 ≠ q - 1 := by omega
      simp only [List.getElem?_set_ne hne]

theorem payloadsBeforeNull_nil : payloadsBeforeNull [] = [] := rfl

theorem payloadsBeforeNull_cons_zero (S : List Nat) : payloadsBeforeNull (0 :: S) = [] := by
  simp [payloadsBeforeNull]

theorem payloadsBeforeNull_cons (p : Nat) (S : List Nat) (hp : p ≠ 0) :
    payloadsBeforeNull (p :: S) = p :: payloadsBeforeNull S := by
  simp [payloadsBeforeNull, hp]

theorem payloadsBeforeNull_eq_self (S : List Nat) (h0 : 0 ∉ S) :
    payloadsBeforeNull S = S := by
  induction S with
  | nil => rfl
  | cons p ps ih =>
    have hp : p ≠ 0 := fun hp => h0 (by simp [hp])
    rw [payloadsBeforeNull_cons p ps hp, ih (fun h => h0 (List.mem_cons_of_mem _ h))]

theorem FreeItem_null (h : Heap) : Mem.FreeItem h 0 = some (EXIT_FAILURE, h) := by
  simp [Mem.FreeItem]

theorem FreeItem_live (h : Heap) (p : Nat) (hp : h.live p) :
    ∃ h1 : Heap, Mem.FreeItem h p = some (EXIT_SUCCESS, h1) ∧
      h1.freed = h.freed ++ [p] ∧ h1.blocks.length = h.blocks.length ∧
      h1.read p = none ∧ ∀ q : Nat, q ≠ p → h1.read q = h.read q := by
  obtain ⟨h1, hf, h2, h3, h4, h5⟩ := free_live h p hp
  have hp0 : p ≠ 0 := by
    have := live_bounds h p hp
    omega
  refine ⟨h1, ?_, h2, h3, h4, h5⟩
  simp [Mem.FreeItem, hp0, hf]

/-- The loop of `DestroyList` on a list whose payloads before the first null
one are live and pairwise different. -/
theorem DestroyList_loop_spec (h : Heap) (S : List Nat)
    (hlive : ∀ p ∈ payloadsBeforeNull S, h.live p)
    (hnd : (payloadsBeforeNull S).Nodup) :
    ∃ h1 : Heap,
      Mem.DestroyList.loop h S =
        some (if 0 ∈ S then EXIT_FAILURE else EXIT_SUCCESS, h1) ∧
      h1.freed = h.freed ++ payloadsBeforeNull S ∧
      h1.blocks.length = h.blocks.length ∧
      (∀ q ∈ payloadsBeforeNull S, h1.read q = none) ∧
      (∀ q : Nat, q ∉ payloadsBeforeNull S → h1.read q = h.read q) := by
  induction S generalizing h with
  | nil =>
    exact ⟨h, by simp [Mem.DestroyList.loop], by simp [payloadsBeforeNull_nil], rfl,
      by simp [payloadsBeforeNull_nil], fun _ _ => rfl⟩
  | cons p ps ih =>
    by_cases hp : p = 0
    · subst hp
      refine ⟨h, ?_, by simp [payloadsBeforeNull_cons_zero], rfl,
        by simp [payloadsBeforeNull_cons_zero], fun _ _ => rfl⟩
      simp [Mem.DestroyList.loop, FreeItem_null]
    · rw [payloadsBeforeNull_cons p ps hp] at hlive hnd
      obtain ⟨hpn, hnd2⟩ := List.nodup_cons.mp hnd
      obtain ⟨h1, hf, hfr, hlen, hrp, hro⟩ :=
        FreeItem_live h p (hlive p (List.mem_cons_self _ _))
      have hlive2 : ∀ q ∈ payloadsBeforeNull ps, h1.live q := by
        intro q hq
        have hqp : q ≠ p := fun e => hpn (e ▸ hq)
        unfold Heap.live
        rw [hro q hqp]
        exact hlive q (List.mem_cons_of_mem _ hq)
      obtain ⟨h2, hl, hfr2, hlen2, hrn, hrs⟩ := ih h1 hlive2 hnd2
      have hne : ¬ EXIT_SUCCESS = EXIT_FAILURE := by decide
      have h0 : (0 ∈ p :: ps) ↔ 0 ∈ ps := by
        simp [List.mem_cons, Ne.symm hp]
      refine ⟨h2, ?_, ?_, by rw [hlen2, hlen], ?_, ?_⟩
      · simp only [Mem.DestroyList.loop, hf, Option.bind_eq_bind, Option.some_bind, hne,
          if_false, hl, h0]
      · rw [hfr2, hfr, payloadsBeforeNull_cons p ps hp]
        simp
      · rw [payloadsBeforeNull_cons p ps hp]
        intro q hq
        rcases List.mem_cons.mp hq with rfl | hq
        · rw [hrs q hpn]
          exact hrp
        · exact hrn q hq
      · rw [payloadsBeforeNull_cons p ps hp]
        intro q hq
        have hqp : q ≠ p := fun e => hq (e ▸ List.mem_cons_self _ _)
        have hqs : q ∉ payloadsBeforeNull ps := fun e => hq (List.mem_cons_of_mem _ e)
        rw [hrs q hqs, hro q hqp]

/-- Function `DestroyList` on a list whose payloads before the first null one
are live and pairwise different. -/
theorem DestroyList_run (h : Heap) (S : List Nat)
    (hlive : ∀ p ∈ payloadsBeforeNull S, h.live p)
    (hnd : (payloadsBeforeNull S).Nodup) :
    ∃ h1 : Heap,
      Mem.DestroyList h S =
        some (if S = [] ∨ 0 ∈ S then EXIT_FAILURE else EXIT_SUCCESS, h1) ∧
      h1.freed = h.freed ++ payloadsBeforeNull S ∧
      h1.blocks.length = h.blocks.length ∧
      (∀ q ∈ payloadsBeforeNull S, h1.read q = none) ∧
      (∀ q : Nat, q ∉ payloadsBeforeNull S → h1.read q = h.read q) := by
  by_cases hS : S = []
  · subst hS
    exact ⟨h, by simp [Mem.DestroyList], by simp [payloadsBeforeNull_nil], rfl,
      by simp [payloadsBeforeNull_nil], fun _ _ => rfl⟩
  · obtain ⟨h1, hl, rest⟩ := DestroyList_loop_spec h S hlive hnd
    refine ⟨h1, ?_, rest⟩
    simp only [Mem.DestroyList, ne_eq, hS, not_false_eq_true, if_true, hl, false_or]

/-- The loop of `CopyList` on a list of live payloads: the copies take the
next addresses in order, each holds the record of the payload it copies, and
every block that existed reads as before. -/
theorem CopyList_loop_spec (h : Heap) (S theCopy : List Nat) (hS : ∀ p ∈ S, h.live p) :
    ∃ h1 : Heap,
      Mem.CopyList.loop h S theCopy =
        some (theCopy ++ List.range' (h.blocks.length + 1) S.length, h1) ∧
      h1.freed = h.freed ∧
      h1.blocks.length = h.blocks.length + S.length ∧
      (∀ q : Nat, q ≤ h.blocks.length → h1.read q = h.read q) ∧
      (∀ (i : Nat) (hi : i < S.length), h1.read (h.blocks.length + 1 + i) = h.read S[i]) := by
  induction S generalizing h theCopy with
  | nil =>
    exact ⟨h, by simp [Mem.CopyList.loop], rfl, rfl, fun _ _ => rfl,
      fun i hi => absurd hi (by simp)⟩
  | cons p ps ih =>
    obtain ⟨r, hr⟩ := Option.isSome_iff_exists.mp (hS p (List.mem_cons_self _ _))
    have hps : ∀ q ∈ ps, (h.alloc { number := r.number, theString := r.theString }).2.live q := by
      intro q hq
      have hq1 := hS q (List.mem_cons_of_mem _ hq)
      have hb := live_bounds h q hq1
      unfold Heap.live
      rw [read_alloc_old h _ q hb.2]
      exact hq1
    obtain ⟨h1, hl, hfr, hlen, hold, hnew⟩ :=
      ih (h.alloc { number := r.number, theString := r.theString }).2
        (theCopy ++ [h.blocks.length + 1]) hps
    rw [alloc_length] at hl hlen hold hnew
    refine ⟨h1, ?_, by rw [hfr, alloc_freed], by rw [hlen, List.length_cons]; omega, ?_, ?_⟩
    · simp only [Mem.CopyList.loop, hr, Option.bind_eq_bind, Option.some_bind, Mem.NewItem,
        alloc_fst, hl, List.length_cons, List.range'_succ, List.append_assoc,
        List.singleton_append]
    · intro q hq
      rw [hold q (by omega), read_alloc_old h _ q hq]
    · intro i hi
      cases i with
      | zero =>
        rw [hold (h.blocks.length + 1 + 0) (by omega)]
        simp only [Nat.add_zero, List.getElem_cons_zero]
        rw [read_alloc_new, hr]
      | succ k =>
        have hk : k < ps.length := by simpa using hi
        have hmem : ps[k] ∈ p :: ps := List.mem_cons_of_mem _ (List.getElem_mem hk)
        have hb := live_bounds h ps[k] (hS _ hmem)
        have hidx : h.blocks.length + 1 + (k + 1) = h.blocks.length + 1 + 1 + k := by omega
        simp only [List.getElem_cons_succ]
        rw [hidx, hnew k hk, read_alloc_old h _ ps[k] hb.2]

/-- Function `CopyList` on a list of live payloads. -/
theorem CopyList_run (h : Heap) (S : List Nat) (hS : ∀ p ∈ S, h.live p) :
    ∃ h1 : Heap,
      Mem.CopyList h S = some (List.range' (h.blocks.length + 1) S.length, h1) ∧
      h1.freed = h.freed ∧
      h1.blocks.length = h.blocks.length + S.length ∧
      (∀ q : Nat, q ≤ h.blocks.length → h1.read q = h.read q) ∧
      (∀ (i : Nat) (hi : i < S.length), h1.read (h.blocks.length + 1 + i) = h.read S[i]) := by
  by_cases hne : S = []
  · subst hne
    exact ⟨h, by simp [Mem.CopyList], rfl, rfl, fun _ _ => rfl, fun i hi => absurd hi (by simp)⟩
  · obtain ⟨h1, hl, rest⟩ := CopyList_loop_spec h S [] hS
    refine ⟨h1, ?_, rest⟩
    simp only [Mem.CopyList, ne_eq, hne, not_false_eq_true, if_true, hl, List.nil_append]

/-- The two embeddings of `CopyList` agree: seen by value, the list the heap
version returns is the list the by-value version returns. -/
theorem CopyList_refines (text : Ptr → CString) (h : Heap) (S : List Nat)
    (hS : ∀ p ∈ S, h.live p) :
    ∃ (C : List Nat) (h1 : Heap), Mem.CopyList h S = some (C, h1) ∧
      CopyList (S.map (h.view text)) = some (C.map (h1.view text)) := by
  obtain ⟨h1, hl, -, -, -, hnew⟩ := CopyList_run h S hS
  refine ⟨_, h1, hl, ?_⟩
  have hview : (List.range' (h.blocks.length + 1) S.length).map (h1.view text) =
      S.map (h.view text) := by
    apply List.ext_getElem
    · simp
    · intro i h1i h2i
      have hi : i < S.length := by simpa using h2i
      simp only [List.getElem_map, List.getElem_range', Heap.view, Nat.one_mul]
      rw [hnew i hi]
  rw [hview]
  apply CopyList_eq
  intro x hx
  obtain ⟨p, hp, rfl⟩ := List.mem_map.mp hx
  obtain ⟨r, hr⟩ := Option.isSome_iff_exists.mp (hS p hp)
  simp [Heap.view, hr]

theorem mem_payloadsBeforeNull (S : List Nat) (q : Nat) (hq : q ∈ payloadsBeforeNull S) :
    q ∈ S ∧ q ≠ 0 := by
  refine ⟨(List.takeWhile_prefix _).subset hq, ?_⟩
  have := List.mem_takeWhile_imp hq
  simpa using this

/-- In a list whose non-null payloads are pairwise different, the payloads
before the first null one are pairwise different and none of them occurs
again from the null one on. -/
theorem payloads_split (S : List Nat) (hnd : (payloads S).Nodup) :
    (payloadsBeforeNull S).Nodup ∧
    ∀ q ∈ payloadsFromNull S, q ≠ 0 → q ∉ payloadsBeforeNull S := by
  induction S with
  | nil => simp [payloadsBeforeNull, payloadsFromNull]
  | cons p ps ih =>
    by_cases hp : p = 0
    · subst hp
      simp [payloadsBeforeNull_cons_zero]
    · have hfil : payloads (p :: ps) = p :: payloads ps := by
        simp [payloads, hp]
      rw [hfil] at hnd
      obtain ⟨hpn, hnd2⟩ := List.nodup_cons.mp hnd
      obtain ⟨ih1, ih2⟩ := ih hnd2
      have hdrop : payloadsFromNull (p :: ps) = payloadsFromNull ps := by
        simp [payloadsFromNull, hp]
      have hp2 : p ∉ payloadsBeforeNull ps := by
        intro hmem
        obtain ⟨h1, h2⟩ := mem_payloadsBeforeNull ps p hmem
        exact hpn (by simp [payloads, h1, h2])
      rw [payloadsBeforeNull_cons p ps hp, hdrop]
      refine ⟨List.nodup_cons.mpr ⟨hp2, ih1⟩, ?_⟩
      intro q hq hq0 hmem
      rcases List.mem_cons.mp hmem with rfl | hmem
      · have hqs : q ∈ ps := (List.dropWhile_suffix _).subset hq
        exact hpn (by simp [payloads, hqs, hq0])
      · exact ih2 q hq hq0 hmem

/-! ## Claims -/

/-- C1: `FindInList` returns the node at the smallest index whose payload
`CompareItemsWithKey` reports `EQUAL` to the probe under the key, and returns
`NULL` exactly when no payload compares `EQUAL`. Stated for every list, probe
and key on which each comparison of the scan has a defined result, as it has
when every node holds a payload (the invariant of a sequence) and the probe is
of the kind the key reads (`CompareItemsWithKey_defined_on`); `EQUAL` is the
value `0` the scan tests for. -/
theorem FindInList_first_match (H : Header) (hEQ : H.EQUAL = 0)
    (S : GList) (v : VoidPtr) (key : Int)
    (hdef : ∀ x ∈ S, (CompareItemsWithKey H (VoidPtr.ofNode x) v key).isSome) :
    (FindInList H S v key).isSome ∧
    (∀ (i : Nat) (hi : i < S.length),
      CompareItemsWithKey H (VoidPtr.ofNode S[i]) v key = some H.EQUAL →
      (∀ (j : Nat) (hj : j < S.length), j < i →
        CompareItemsWithKey H (VoidPtr.ofNode S[j]) v key ≠ some H.EQUAL) →
      FindInList H S v key = some (S.drop i)) ∧
    (FindInList H S v key = some [] ↔
      ∀ x ∈ S, CompareItemsWithKey H (VoidPtr.ofNode x) v key ≠ some H.EQUAL) := by
  rw [hEQ]
  exact ⟨FindInList_isSome H S v key hdef,
    fun i hi heq hmin => FindInList_drop H S v key hdef i hi heq hmin,
    FindInList_null_iff H S v key hdef⟩

/-- C1 at the specification's example: in `[(1,"a"), (2,"b"), (2,"c")]` the
bare integer `2` under `SINGLEINT` is found at `(2,"b")`. -/
theorem FindInList_first_match_witness :
    sampleHeader.EQUAL = 0 ∧
    (∀ x ∈ exampleList, (CompareItemsWithKey sampleHeader (VoidPtr.ofNode x)
      (VoidPtr.int 2) sampleHeader.SINGLEINT).isSome) ∧
    FindInList sampleHeader exampleList (VoidPtr.int 2) sampleHeader.SINGLEINT =
      some [NewItem 2 (ascii "b"), NewItem 2 (ascii "c")] :=
  ⟨rfl, by decide,
    (FindInList_first_match sampleHeader rfl exampleList (VoidPtr.int 2)
      sampleHeader.SINGLEINT (by decide)).2.1 1 (by decide) (by decide) (by decide)⟩

/-- C2: `CopyList` returns a list of the same length as its input whose
payload at every index has the same integer and the same text as the input's
payload there, and the copy of the null list is the empty list. Stated for
every list whose nodes all hold a payload (the invariant of a sequence), the
null list included. -/
theorem CopyList_same_pairs (S : GList) (hS : ∀ x ∈ S, x ≠ none) :
    (∃ C : GList, CopyList S = some C ∧ C.length = S.length ∧
      ∀ (i : Nat) (hi : i < S.length) (hc : i < C.length),
        ∃ p q : myData, S[i] = some p ∧ C[i] = some q ∧
          q.number = p.number ∧ q.theString = p.theString) ∧
    CopyList [] = some [] := by
  refine ⟨⟨S, CopyList_eq S hS, rfl, ?_⟩, rfl⟩
  intro i hi _
  cases hp : S[i] with
  | none => exact absurd hp (hS _ (List.getElem_mem hi))
  | some p => exact ⟨p, p, rfl, rfl, rfl, rfl⟩

/-- C2 at the list `[(1,"a"), (2,"b"), (2,"c")]`. -/
theorem CopyList_same_pairs_witness :
    (∀ x ∈ exampleList, x ≠ none) ∧
    ((∃ C : GList, CopyList exampleList = some C ∧ C.length = exampleList.length ∧
      ∀ (i : Nat) (hi : i < exampleList.length) (hc : i < C.length),
        ∃ p q : myData, exampleList[i] = some p ∧ C[i] = some q ∧
          q.number = p.number ∧ q.theString = p.theString) ∧
    CopyList [] = some []) :=
  ⟨by decide, CopyList_same_pairs exampleList (by decide)⟩

/-- C3: `CompareItems` looks at the integer fields only: it is `LESS` iff the
first integer is smaller, `GREATER` iff it is larger and `EQUAL` iff the two
integers are the same, whatever the texts are. -/
theorem CompareItems_integer_only (H : Header) (hd : H.distinctResults) (a b : myData) :
    (CompareItems H (.node a) (.node b) = some H.LESS ↔ a.number < b.number) ∧
    (CompareItems H (.node a) (.node b) = some H.GREATER ↔ a.number > b.number) ∧
    (CompareItems H (.node a) (.node b) = some H.EQUAL ↔ a.number = b.number) ∧
    (∀ s t : CString,
      CompareItems H (.node { number := a.number, theString := s })
          (.node { number := b.number, theString := t }) =
        CompareItems H (.node a) (.node b)) := by
  obtain ⟨h1, h2, -, h4, -, -⟩ := hd
  rw [CompareItems_node]
  refine ⟨?_, ?_, ?_, ?_⟩
  · split_ifs with hlt hgt
    · simp [hlt]
    · simp only [Option.some.injEq]
      exact ⟨fun h => absurd h.symm h2, fun h => absurd h hlt⟩
    · simp only [Option.some.injEq]
      exact ⟨fun h => absurd h.symm h1, fun h => absurd h hlt⟩
  · split_ifs with hlt hgt
    · simp only [Option.some.injEq]
      exact ⟨fun h => absurd h h2, fun h => by omega⟩
    · simp [hgt]
    · simp only [Option.some.injEq]
      exact ⟨fun h => absurd h h4, fun h => absurd h hgt⟩
  · split_ifs with hlt hgt
    · simp only [Option.some.injEq]
      exact ⟨fun h => absurd h h1, fun h => by omega⟩
    · simp only [Option.some.injEq]
      exact ⟨fun h => absurd h.symm h4, fun h => by omega⟩
    · simp only [true_iff]
      omega
  · intro s t
    rw [CompareItems_node]

/-- C3 at `(2,"b")` and `(2,"c")`: same integer, different texts, `EQUAL`. -/
theorem CompareItems_integer_only_witness :
    sampleHeader.distinctResults ∧
    CompareItems sampleHeader (.node { number := 2, theString := ascii "b" })
      (.node { number := 2, theString := ascii "c" }) = some sampleHeader.EQUAL :=
  ⟨by decide,
    (CompareItems_integer_only sampleHeader (by decide)
      { number := 2, theString := ascii "b" }
      { number := 2, theString := ascii "c" }).2.2.1.mpr rfl⟩

/-- C4: `CompareItems a b` is `GREATER` iff `CompareItems b a` is `LESS`, and
`CompareItems a b` is `EQUAL` iff `CompareItems b a` is `EQUAL`. -/
theorem CompareItems_antisymm (H : Header) (hd : H.distinctResults) (a b : myData) :
    (CompareItems H (.node a) (.node b) = some H.GREATER ↔
      CompareItems H (.node b) (.node a) = some H.LESS) ∧
    (CompareItems H (.node a) (.node b) = some H.EQUAL ↔
      CompareItems H (.node b) (.node a) = some H.EQUAL) := by
  obtain ⟨h1, h2, -, h4, -, -⟩ := hd
  rw [CompareItems_node, CompareItems_node]
  rcases lt_trichotomy a.number b.number with hlt | heq | hgt
  · have hn : ¬ b.number < a.number := by omega
    have hg : ¬ a.number > b.number := by omega
    have hg2 : b.number > a.number := hlt
    simp only [hlt, hn, hg, hg2, if_true, if_false, Option.some.injEq]
    exact ⟨⟨fun h => absurd h h2, fun h => absurd h.symm h2⟩,
      ⟨fun h => absurd h h1, fun h => absurd h.symm h4⟩⟩
  · have hn1 : ¬ a.number < b.number := by omega
    have hn2 : ¬ b.number < a.number := by omega
    have hg1 : ¬ a.number > b.number := by omega
    have hg2 : ¬ b.number > a.number := by omega
    simp only [hn1, hn2, hg1, hg2, if_false, Option.some.injEq, iff_true, and_true]
    exact ⟨fun h => absurd h h4, fun h => absurd h.symm h1⟩
  · have hn : ¬ a.number < b.number := by omega
    have hg : ¬ b.number > a.number := by omega
    have hlt2 : b.number < a.number := hgt
    simp only [hn, hg, hgt, hlt2, if_true, if_false, Option.some.injEq, iff_true, true_and]
    exact ⟨fun h => absurd h.symm h4, fun h => absurd h h1⟩

/-- C4 at `(5,"y")` against `(1,"x")`. -/
theorem CompareItems_antisymm_witness :
    sampleHeader.distinctResults ∧
    CompareItems sampleHeader (.node { number := 1, theString := ascii "x" })
      (.node { number := 5, theString := ascii "y" }) = some sampleHeader.LESS :=
  ⟨by decide,
    (CompareItems_antisymm sampleHeader (by decide)
      { number := 5, theString := ascii "y" }
      { number := 1, theString := ascii "x" }).1.mp (by decide)⟩

/-- C5: every payload compares `EQUAL` to itself under `CompareItems`. -/
theorem CompareItems_refl (H : Header) (p : myData) :
    CompareItems H (.node p) (.node p) = some H.EQUAL := by
  rw [CompareItems_node]
  simp

/-- C6: under `SINGLESTR` a payload compares `EQUAL` to a text iff the
payload's text and the probe are the same bytes, and `NOTEQUAL` otherwise; no
case folding: text `louie` is `EQUAL` to `louie` and `NOTEQUAL` to `Louie`. -/
theorem CompareItemsWithKey_SINGLESTR_spec (H : Header) (hk : H.distinctKeys)
    (hd : H.distinctResults) (X : myData) (t : CString) :
    (CompareItemsWithKey H (.node X) (.str t) H.SINGLESTR = some H.EQUAL ↔
      cstr X.theString = cstr t) ∧
    (cstr X.theString ≠ cstr t →
      CompareItemsWithKey H (.node X) (.str t) H.SINGLESTR = some H.NOTEQUAL) ∧
    (X.theString = ascii "louie" →
      CompareItemsWithKey H (.node X) (.str (ascii "louie")) H.SINGLESTR = some H.EQUAL ∧
      CompareItemsWithKey H (.node X) (.str (ascii "Louie")) H.SINGLESTR =
        some H.NOTEQUAL) := by
  obtain ⟨-, -, -, -, h5, -⟩ := hd
  refine ⟨?_, ?_, ?_⟩
  · rw [CompareItemsWithKey_SINGLESTR H hk, ← strcmp_eq_zero_iff]
    split_ifs with h
    · simp [h]
    · simp only [Option.some.injEq, h, iff_false]
      exact fun h6 => h5 h6.symm
  · intro hne
    rw [CompareItemsWithKey_SINGLESTR H hk, if_neg]
    rwa [strcmp_eq_zero_iff]
  · intro hX
    rw [CompareItemsWithKey_SINGLESTR H hk, CompareItemsWithKey_SINGLESTR H hk, hX]
    have h1 : strcmp (ascii "louie") (ascii "louie") = 0 := by decide
    have h2 : ¬ strcmp (ascii "louie") (ascii "Louie") = 0 := by decide
    rw [if_pos h1, if_neg h2]
    exact ⟨rfl, rfl⟩

/-- C6 at the payload `(7,"louie")` probed with `Louie`. -/
theorem CompareItemsWithKey_SINGLESTR_spec_witness :
    sampleHeader.distinctKeys ∧ sampleHeader.distinctResults ∧
    cstr (ascii "louie") ≠ cstr (ascii "Louie") ∧
    CompareItemsWithKey sampleHeader (.node { number := 7, theString := ascii "louie" })
      (.str (ascii "Louie")) sampleHeader.SINGLESTR = some sampleHeader.NOTEQUAL :=
  ⟨by decide, by decide, by decide,
    (CompareItemsWithKey_SINGLESTR_spec sampleHeader (by decide) (by decide)
      { number := 7, theString := ascii "louie" } (ascii "Louie")).2.1 (by decide)⟩

/-- C7: under `SINGLEINT` a payload compares `EQUAL` to a referenced integer
iff the payload's integer is that integer, and `NOTEQUAL` otherwise; the result
is never `LESS` or `GREATER`. -/
theorem CompareItemsWithKey_SINGLEINT_spec (H : Header) (hk : H.distinctKeys)
    (hd : H.distinctResults) (a : myData) (n : Int) :
    (CompareItemsWithKey H (.node a) (.int n) H.SINGLEINT = some H.EQUAL ↔
      a.number = n) ∧
    (a.number ≠ n →
      CompareItemsWithKey H (.node a) (.int n) H.SINGLEINT = some H.NOTEQUAL) ∧
    CompareItemsWithKey H (.node a) (.int n) H.SINGLEINT ≠ some H.LESS ∧
    CompareItemsWithKey H (.node a) (.int n) H.SINGLEINT ≠ some H.GREATER := by
  obtain ⟨h1, -, h3, h4, h5, h6⟩ := hd
  rw [CompareItemsWithKey_SINGLEINT H hk]
  refine ⟨?_, ?_, ?_, ?_⟩
  · split_ifs with h
    · simp [h]
    · simp only [Option.some.injEq, h, iff_false]
      exact fun h7 => h5 h7.symm
  · intro hne
    rw [if_neg hne]
  · split_ifs
    · simp only [ne_eq, Option.some.injEq]
      exact fun h7 => h1 h7.symm
    · simp only [ne_eq, Option.some.injEq]
      exact fun h7 => h3 h7.symm
  · split_ifs
    · simp only [ne_eq, Option.some.injEq]
      exact h4
    · simp only [ne_eq, Option.some.injEq]
      exact fun h7 => h6 h7.symm

/-- C7 at the payload `(2,"b")` probed with the integers `2` and `3`. -/
theorem CompareItemsWithKey_SINGLEINT_spec_witness :
    sampleHeader.distinctKeys ∧ sampleHeader.distinctResults ∧
    CompareItemsWithKey sampleHeader (.node { number := 2, theString := ascii "b" })
      (.int 2) sampleHeader.SINGLEINT = some sampleHeader.EQUAL ∧
    CompareItemsWithKey sampleHeader (.node { number := 2, theString := ascii "b" })
      (.int 3) sampleHeader.SINGLEINT = some sampleHeader.NOTEQUAL :=
  ⟨by decide, by decide,
    (CompareItemsWithKey_SINGLEINT_spec sampleHeader (by decide) (by decide)
      { number := 2, theString := ascii "b" } 2).1.mpr rfl,
    (CompareItemsWithKey_SINGLEINT_spec sampleHeader (by decide) (by decide)
      { number := 2, theString := ascii "b" } 3).2.1 (by decide)⟩

/-- C8: under `STR` two payloads compare `EQUAL` iff their texts are the same
bytes, and `NOTEQUAL` otherwise; the result is never `LESS` or `GREATER` and
does not depend on the integer fields. -/
theorem CompareItemsWithKey_STR_spec (H : Header) (hk : H.distinctKeys)
    (hd : H.distinctResults) (a b : myData) :
    (CompareItemsWithKey H (.node a) (.node b) H.STR = some H.EQUAL ↔
      cstr a.theString = cstr b.theString) ∧
    (cstr a.theString ≠ cstr b.theString →
      CompareItemsWithKey H (.node a) (.node b) H.STR = some H.NOTEQUAL) ∧
    CompareItemsWithKey H (.node a) (.node b) H.STR ≠ some H.LESS ∧
    CompareItemsWithKey H (.node a) (.node b) H.STR ≠ some H.GREATER ∧
    (∀ m n : Int,
      CompareItemsWithKey H (.node { number := m, theString := a.theString })
          (.node { number := n, theString := b.theString }) H.STR =
        CompareItemsWithKey H (.node a) (.node b) H.STR) := by
  obtain ⟨h1, -, h3, h4, h5, h6⟩ := hd
  refine ⟨?_, ?_, ?_, ?_, ?_⟩
  · rw [CompareItemsWithKey_STR H hk, ← strcmp_eq_zero_iff]
    split_ifs with h
    · simp [h]
    · simp only [Option.some.injEq, h, iff_false]
      exact fun h7 => h5 h7.symm
  · intro hne
    rw [CompareItemsWithKey_STR H hk, if_neg]
    rwa [strcmp_eq_zero_iff]
  · rw [CompareItemsWithKey_STR H hk]
    split_ifs
    · simp only [ne_eq, Option.some.injEq]
      exact fun h7 => h1 h7.symm
    · simp only [ne_eq, Option.some.injEq]
      exact fun h7 => h3 h7.symm
  · rw [CompareItemsWithKey_STR H hk]
    split_ifs
    · simp only [ne_eq, Option.some.injEq]
      exact h4
    · simp only [ne_eq, Option.some.injEq]
      exact fun h7 => h6 h7.symm
  · intro m n
    rw [CompareItemsWithKey_STR H hk, CompareItemsWithKey_STR H hk]

/-- C8 at `(1,"b")` against `(9,"b")` and against `(1,"c")`. -/
theorem CompareItemsWithKey_STR_spec_witness :
    sampleHeader.distinctKeys ∧ sampleHeader.distinctResults ∧
    CompareItemsWithKey sampleHeader (.node { number := 1, theString := ascii "b" })
      (.node { number := 9, theString := ascii "b" }) sampleHeader.STR =
        some sampleHeader.EQUAL ∧
    CompareItemsWithKey sampleHeader (.node { number := 1, theString := ascii "b" })
      (.node { number := 1, theString := ascii "c" }) sampleHeader.STR =
        some sampleHeader.NOTEQUAL :=
  ⟨by decide, by decide,
    (CompareItemsWithKey_STR_spec sampleHeader (by decide) (by decide)
      { number := 1, theString := ascii "b" }
      { number := 9, theString := ascii "b" }).1.mpr rfl,
    (CompareItemsWithKey_STR_spec sampleHeader (by decide) (by decide)
      { number := 1, theString := ascii "b" }
      { number := 1, theString := ascii "c" }).2.1 (by decide)⟩

/-- C9: under `INT`, `CompareItemsWithKey` is `CompareItems`, on all
operands. -/
theorem CompareItemsWithKey_INT_eq_CompareItems (H : Header) (a b : VoidPtr) :
    CompareItemsWithKey H a b H.INT = CompareItems H a b := by
  simp only [CompareItemsWithKey, if_true]

/-- C10: for a key that is none of `INT`, `STR`, `SINGLESTR`, `SINGLEINT`,
`CompareItemsWithKey` returns `NOTEQUAL` on all operands, null ones included,
and `FindInList` with such a key returns `NULL` for every list. -/
theorem CompareItemsWithKey_unknown_key (H : Header) (hEQ : H.EQUAL = 0)
    (hne : H.NOTEQUAL ≠ H.EQUAL) (key : Int)
    (hkey : key ≠ H.INT ∧ key ≠ H.STR ∧ key ≠ H.SINGLESTR ∧ key ≠ H.SINGLEINT) :
    (∀ a b : VoidPtr, CompareItemsWithKey H a b key = some H.NOTEQUAL) ∧
    (∀ (S : GList) (v : VoidPtr), FindInList H S v key = some []) := by
  refine ⟨fun a b => CompareItemsWithKey_other H a b key hkey, fun S v => ?_⟩
  exact FindInList_none_match H S v key H.NOTEQUAL (hEQ ▸ hne)
    (fun x _ => CompareItemsWithKey_other H _ v key hkey)

/-- C10 at the key `42`, on null operands and on a list with a null payload
that holds a payload equal to the probe. -/
theorem CompareItemsWithKey_unknown_key_witness :
    sampleHeader.EQUAL = 0 ∧ sampleHeader.NOTEQUAL ≠ sampleHeader.EQUAL ∧
    ((42 : Int) ≠ sampleHeader.INT ∧ (42 : Int) ≠ sampleHeader.STR ∧
      (42 : Int) ≠ sampleHeader.SINGLESTR ∧ (42 : Int) ≠ sampleHeader.SINGLEINT) ∧
    CompareItemsWithKey sampleHeader .null .null 42 = some sampleHeader.NOTEQUAL ∧
    FindInList sampleHeader [none, NewItem 2 (ascii "b")]
      (.node { number := 2, theString := ascii "b" }) 42 = some [] :=
  ⟨rfl, by decide, by decide,
    (CompareItemsWithKey_unknown_key sampleHeader rfl (by decide) 42 (by decide)).1
      .null .null,
    (CompareItemsWithKey_unknown_key sampleHeader rfl (by decide) 42 (by decide)).2
      [none, NewItem 2 (ascii "b")] (.node { number := 2, theString := ascii "b" })⟩


/-- C11: on the empty (null) list `FindInList` returns `NULL`, whatever the
probe and the key. -/
theorem FindInList_empty (H : Header) (v : VoidPtr) (key : Int) :
    FindInList H [] v key = some [] := by
  simp only [FindInList]

/-- C12: for a payload with integer `n` and text `t`, `PrintItem` returns
`EXIT_SUCCESS` and writes the decimal digits of `n` (after a minus sign when
`n` is negative), one space, the text and a newline; the digits denote the
magnitude of `n`, the output holds a single newline when the text holds none,
and the payload `NewItem(13, "Hello")` is written as `13 Hello` and a
newline. -/
theorem PrintItem_line (n : Int) (t : CString) :
    PrintItem (some { number := n, theString := t }) =
      (EXIT_SUCCESS, fmt_d n ++ [32] ++ cstr t ++ [10]) ∧
    (∃ ds : List Nat, fmt_d n = (if n < 0 then [45] else []) ++ ds ∧
      (∀ d ∈ ds, 48 ≤ d ∧ d ≤ 57) ∧ decimalValue ds = n.natAbs) ∧
    (10 ∉ cstr t →
      (PrintItem (some { number := n, theString := t })).2.count 10 = 1) ∧
    PrintItem (NewItem 13 (ascii "Hello")) = (EXIT_SUCCESS, ascii "13 Hello" ++ [10]) := by
  refine ⟨rfl, ⟨(Nat.toDigits 10 n.natAbs).map Char.toNat, ?_, toDigits_digits _,
    decimalValue_toDigits _⟩, ?_, by decide⟩
  · unfold fmt_d
    split_ifs <;> rfl
  · intro ht
    have h1 : (fmt_d n).count 10 = 0 := List.count_eq_zero.mpr (fmt_d_no_newline n)
    have h2 : (cstr t).count 10 = 0 := List.count_eq_zero.mpr ht
    simp [PrintItem, printf_d_s, List.count_append, h1, h2]

/-- C12 at the payload `(-7, "x")`: one line, `-7 x`. -/
theorem PrintItem_line_witness :
    10 ∉ cstr (ascii "x") ∧
    (PrintItem (some { number := -7, theString := ascii "x" })).2.count 10 = 1 :=
  ⟨by decide, (PrintItem_line (-7) (ascii "x")).2.2.1 (by decide)⟩

/-- C13: `PrintList` writes, in list order, the lines of the nodes that come
before the first node with a null payload (of all nodes when there is none);
it returns `EXIT_FAILURE` when the list is null or holds a null payload, and
`EXIT_SUCCESS` otherwise. -/
theorem PrintList_spec (S : GList) :
    (PrintList S).2 = renderedLines (S.takeWhile (fun data => data.isSome)) ∧
    ((PrintList S).1 = EXIT_FAILURE ↔ S = [] ∨ none ∈ S) ∧
    ((PrintList S).1 = EXIT_SUCCESS ↔ S ≠ [] ∧ none ∉ S) := by
  have hne : ¬ EXIT_SUCCESS = EXIT_FAILURE := by decide
  have hne2 : ¬ EXIT_FAILURE = EXIT_SUCCESS := by decide
  unfold PrintList
  by_cases hS : S = []
  · subst hS
    simp [renderedLines, hne2]
  · rw [if_pos hS, PrintList_loop_eq]
    by_cases hn : none ∈ S
    · simp [hS, hn, hne2]
    · simp [hS, hn, hne]

/-- C18: `CompareItems` orders payloads transitively: if `a` against `b` and
`b` against `c` are each `LESS` or `EQUAL`, so is `a` against `c`; and if both
are `EQUAL`, `a` against `c` is `EQUAL`. -/
theorem CompareItems_trans (H : Header) (hd : H.distinctResults) (a b c : myData) :
    ((CompareItems H (.node a) (.node b) = some H.LESS ∨
        CompareItems H (.node a) (.node b) = some H.EQUAL) →
      (CompareItems H (.node b) (.node c) = some H.LESS ∨
        CompareItems H (.node b) (.node c) = some H.EQUAL) →
      (CompareItems H (.node a) (.node c) = some H.LESS ∨
        CompareItems H (.node a) (.node c) = some H.EQUAL)) ∧
    (CompareItems H (.node a) (.node b) = some H.EQUAL →
      CompareItems H (.node b) (.node c) = some H.EQUAL →
      CompareItems H (.node a) (.node c) = some H.EQUAL) := by
  constructor
  · intro hab hbc
    rw [CompareItems_le_iff H hd] at hab hbc ⊢
    exact le_trans hab hbc
  · intro hab hbc
    rw [CompareItems_eq_iff H hd] at hab hbc ⊢
    exact hab.trans hbc

/-- C18 at `(1,"a")`, `(2,"b")`, `(2,"c")`. -/
theorem CompareItems_trans_witness :
    sampleHeader.distinctResults ∧
    (CompareItems sampleHeader (.node { number := 1, theString := ascii "a" })
        (.node { number := 2, theString := ascii "c" }) = some sampleHeader.LESS ∨
      CompareItems sampleHeader (.node { number := 1, theString := ascii "a" })
        (.node { number := 2, theString := ascii "c" }) = some sampleHeader.EQUAL) :=
  ⟨by decide,
    (CompareItems_trans sampleHeader (by decide)
      { number := 1, theString := ascii "a" } { number := 2, theString := ascii "b" }
      { number := 2, theString := ascii "c" }).1 (by decide) (by decide)⟩

/-- C19: on a list whose nodes all hold a payload, searching the copy made by
`CopyList` is not-found exactly when searching the original is, and a node
found in the original sits at an index where the copy is found too, the two
payloads there having the same integer and the same text. -/
theorem FindInList_CopyList (H : Header) (S : GList) (v : VoidPtr) (key : Int)
    (hS : ∀ x ∈ S, x ≠ none) :
    ∃ C : GList, CopyList S = some C ∧ C.length = S.length ∧
      (FindInList H C v key = some [] ↔ FindInList H S v key = some []) ∧
      (∀ r : GList, FindInList H S v key = some r → r ≠ [] →
        ∃ (i : Nat) (p q : myData), i < S.length ∧ r = S.drop i ∧
          FindInList H C v key = some (C.drop i) ∧
          S[i]? = some (some p) ∧ C[i]? = some (some q) ∧
          q.number = p.number ∧ q.theString = p.theString) := by
  refine ⟨S, CopyList_eq S hS, rfl, Iff.rfl, ?_⟩
  intro r hr hne
  obtain ⟨i, hi, hri⟩ := FindInList_suffix H S v key r hr hne
  cases hp : S[i] with
  | none => exact absurd hp (hS _ (List.getElem_mem hi))
  | some p =>
    refine ⟨i, p, p, hi, hri, hri ▸ hr, ?_, ?_, rfl, rfl⟩
    · rw [List.getElem?_eq_getElem hi, hp]
    · rw [List.getElem?_eq_getElem hi, hp]

/-- C19 at the list `[(1,"a"), (2,"b"), (2,"c")]` searched for the bare
integer `2`. -/
theorem FindInList_CopyList_witness :
    (∀ x ∈ exampleList, x ≠ none) ∧
    ∃ C : GList, CopyList exampleList = some C ∧ C.length = exampleList.length ∧
      (FindInList sampleHeader C (.int 2) sampleHeader.SINGLEINT = some [] ↔
        FindInList sampleHeader exampleList (.int 2) sampleHeader.SINGLEINT = some []) ∧
      (∀ r : GList,
        FindInList sampleHeader exampleList (.int 2) sampleHeader.SINGLEINT = some r →
        r ≠ [] →
        ∃ (i : Nat) (p q : myData), i < exampleList.length ∧ r = exampleList.drop i ∧
          FindInList sampleHeader C (.int 2) sampleHeader.SINGLEINT = some (C.drop i) ∧
          exampleList[i]? = some (some p) ∧ C[i]? = some (some q) ∧
          q.number = p.number ∧ q.theString = p.theString) :=
  ⟨by decide,
    FindInList_CopyList sampleHeader exampleList (.int 2) sampleHeader.SINGLEINT
      (by decide)⟩

/-- C20: on a list whose nodes all hold a payload, searching for a payload
`b` under `STR` returns the same node as searching for the text of `b` under
`SINGLESTR`, and searching for `b` under `INT` returns the same node as
searching for a reference to the integer of `b` under `SINGLEINT`; all four
searches return. -/
theorem FindInList_record_vs_bare (H : Header) (hEQ : H.EQUAL = 0)
    (hd : H.distinctResults) (hk : H.distinctKeys) (S : GList) (b : myData)
    (hS : ∀ x ∈ S, x ≠ none) :
    (FindInList H S (.node b) H.STR = FindInList H S (.str b.theString) H.SINGLESTR ∧
      (FindInList H S (.node b) H.STR).isSome) ∧
    (FindInList H S (.node b) H.INT = FindInList H S (.int b.number) H.SINGLEINT ∧
      (FindInList H S (.node b) H.INT).isSome) := by
  obtain ⟨h1, -, -, h4, h5, -⟩ := hd
  constructor
  · apply FindInList_congr
    intro x hx
    cases x with
    | none => exact absurd rfl (hS none hx)
    | some d =>
      exact ⟨_, _, CompareItemsWithKey_STR H hk d b,
        CompareItemsWithKey_SINGLESTR H hk d b.theString, Iff.rfl⟩
  · apply FindInList_congr
    intro x hx
    cases x with
    | none => exact absurd rfl (hS none hx)
    | some d =>
      refine ⟨if d.number < b.number then H.LESS
          else if d.number > b.number then H.GREATER else H.EQUAL,
        _, ?_, CompareItemsWithKey_SINGLEINT H hk d b.number, ?_⟩
      · show CompareItemsWithKey H (.node d) (.node b) H.INT = _
        simp only [CompareItemsWithKey, if_true]
        exact CompareItems_node H d b
      · rw [← hEQ]
        split_ifs with hlt hgt heq heq heq
        · exact ⟨fun h => absurd h h1, fun h => absurd h (by omega)⟩
        · exact ⟨fun h => absurd h (by omega), fun h => absurd h (Ne.symm h5)⟩
        · exact ⟨fun h => absurd h.symm h4, fun h => absurd h (by omega)⟩
        · exact ⟨fun h => absurd h.symm h4, fun h => absurd h (Ne.symm h5)⟩
        · exact Iff.rfl
        · omega

/-- C20 at the list `[(1,"a"), (2,"b"), (2,"c")]` and the payload `(2,"c")`:
the text search stops at `(2,"c")`, the integer search at `(2,"b")`. -/
theorem FindInList_record_vs_bare_witness :
    sampleHeader.EQUAL = 0 ∧ sampleHeader.distinctResults ∧ sampleHeader.distinctKeys ∧
    (∀ x ∈ exampleList, x ≠ none) ∧
    FindInList sampleHeader exampleList (.str (ascii "c")) sampleHeader.SINGLESTR =
      FindInList sampleHeader exampleList
        (.node { number := 2, theString := ascii "c" }) sampleHeader.STR ∧
    FindInList sampleHeader exampleList (.int 2) sampleHeader.SINGLEINT =
      FindInList sampleHeader exampleList
        (.node { number := 2, theString := ascii "c" }) sampleHeader.INT :=
  ⟨rfl, by decide, by decide, by decide,
    ((FindInList_record_vs_bare sampleHeader rfl (by decide) (by decide) exampleList
      { number := 2, theString := ascii "c" } (by decide)).1.1).symm,
    ((FindInList_record_vs_bare sampleHeader rfl (by decide) (by decide) exampleList
      { number := 2, theString := ascii "c" } (by decide)).2.1).symm⟩


/-- C14: `FreeItem` returns `EXIT_FAILURE` on a null reference and leaves
the heap as it was; on the address of a live payload it returns
`EXIT_SUCCESS`, the payload is released and recorded as such, and every other
address reads as before. -/
theorem FreeItem_spec (h : Heap) (p : Nat) :
    Mem.FreeItem h 0 = some (EXIT_FAILURE, h) ∧
    (h.live p →
      ∃ h1 : Heap, Mem.FreeItem h p = some (EXIT_SUCCESS, h1) ∧
        ¬ h1.live p ∧ h1.freed = h.freed ++ [p] ∧
        ∀ q : Nat, q ≠ p → h1.read q = h.read q) := by
  refine ⟨FreeItem_null h, fun hp => ?_⟩
  obtain ⟨h1, hf, hfr, -, hrp, hro⟩ := FreeItem_live h p hp
  refine ⟨h1, hf, ?_, hfr, hro⟩
  unfold Heap.live
  rw [hrp]
  simp

/-- C14 at the heap holding `(1, x)` and `(5, y)`: releasing the second
payload. -/
theorem FreeItem_spec_witness :
    exampleHeap.live 2 ∧
    ∃ h1 : Heap, Mem.FreeItem exampleHeap 2 = some (EXIT_SUCCESS, h1) ∧
      ¬ h1.live 2 ∧ h1.freed = exampleHeap.freed ++ [2] ∧
      ∀ q : Nat, q ≠ 2 → h1.read q = exampleHeap.read q :=
  ⟨by decide, (FreeItem_spec exampleHeap 2).2 (by decide)⟩

/-- C15: `DestroyList` returns `EXIT_FAILURE` on the null list. On a list
whose non-null payloads are live and pairwise different it releases the
payloads that come before the first null one, in list order and each once,
and nothing else; it returns `EXIT_FAILURE` iff the list is null or holds a
null payload, every payload after the null one staying live, and
`EXIT_SUCCESS` with every payload released otherwise. -/
theorem DestroyList_spec (h : Heap) (S : List Nat)
    (hlive : ∀ p ∈ S, p ≠ 0 → h.live p) (hnd : (payloads S).Nodup) :
    Mem.DestroyList h [] = some (EXIT_FAILURE, h) ∧
    ∃ (r : Int) (h1 : Heap), Mem.DestroyList h S = some (r, h1) ∧
      h1.freed = h.freed ++ payloadsBeforeNull S ∧
      (payloadsBeforeNull S).Nodup ∧
      (∀ q ∈ payloadsBeforeNull S, ¬ h1.live q) ∧
      (∀ q : Nat, q ∉ payloadsBeforeNull S → h1.read q = h.read q) ∧
      (r = EXIT_FAILURE ↔ S = [] ∨ 0 ∈ S) ∧
      (0 ∈ S → ∀ q ∈ payloadsFromNull S, q ≠ 0 → h1.live q) ∧
      (S ≠ [] → 0 ∉ S →
        r = EXIT_SUCCESS ∧ payloadsBeforeNull S = S ∧ ∀ q ∈ S, ¬ h1.live q) := by
  obtain ⟨hnd1, hdisj⟩ := payloads_split S hnd
  have hlive1 : ∀ p ∈ payloadsBeforeNull S, h.live p := by
    intro p hp
    obtain ⟨h1, h2⟩ := mem_payloadsBeforeNull S p hp
    exact hlive p h1 h2
  obtain ⟨h1, hrun, hfr, -, hrel, hkeep⟩ := DestroyList_run h S hlive1 hnd1
  have hne : ¬ EXIT_SUCCESS = EXIT_FAILURE := by decide
  have hdead : ∀ q ∈ payloadsBeforeNull S, ¬ h1.live q := by
    intro q hq
    unfold Heap.live
    rw [hrel q hq]
    simp
  refine ⟨by simp [Mem.DestroyList], _, h1, hrun, hfr, hnd1, hdead, hkeep, ?_, ?_, ?_⟩
  · split_ifs with hc
    · simp [hc]
    · simp only [hne, false_iff]
      exact hc
  · intro _ q hq hq0
    unfold Heap.live
    rw [hkeep q (hdisj q hq hq0)]
    exact hlive q ((List.dropWhile_suffix _).subset hq) hq0
  · intro hS h0
    have hall : payloadsBeforeNull S = S := payloadsBeforeNull_eq_self S h0
    refine ⟨?_, hall, ?_⟩
    · rw [if_neg (not_or.mpr ⟨hS, h0⟩)]
    · intro q hq
      exact hdead q (hall.symm ▸ hq)

/-- C15 at the heap holding `(1, x)` and `(5, y)` and the list of the first
payload, a null payload and the second payload: failure, the first payload
released, the second still live. -/
theorem DestroyList_spec_witness :
    (∀ p ∈ [1, 0, 2], p ≠ 0 → exampleHeap.live p) ∧ (payloads [1, 0, 2]).Nodup ∧
    ∃ (r : Int) (h1 : Heap), Mem.DestroyList exampleHeap [1, 0, 2] = some (r, h1) ∧
      r = EXIT_FAILURE ∧ h1.freed = [1] ∧ ¬ h1.live 1 ∧ h1.live 2 := by
  have hl : ∀ p ∈ [1, 0, 2], p ≠ 0 → exampleHeap.live p := by decide
  have hn : (payloads [1, 0, 2]).Nodup := by decide
  obtain ⟨-, r, h1, hrun, hfr, -, hdead, -, hr, hafter, -⟩ :=
    DestroyList_spec exampleHeap [1, 0, 2] hl hn
  exact ⟨hl, hn, r, h1, hrun, hr.mpr (Or.inr (by decide)), by simpa using hfr,
    hdead 1 (by decide), hafter (by decide) 2 (by decide) (by decide)⟩

/-- C16: `CopyItems` returns `NULL` on `NULL` and changes nothing; on a live
payload it returns the address of a new, non-null record holding the same
integer and the same text address, the source and every other live record
reading as before. -/
theorem CopyItems_spec (h : Heap) (p : Nat) (r : Record) :
    Mem.CopyItems h 0 = some (0, h) ∧
    (h.read p = some r →
      ∃ (q : Nat) (h1 : Heap), Mem.CopyItems h p = some (q, h1) ∧
        q ≠ 0 ∧ q ≠ p ∧ h.read q = none ∧
        h1.read q = some { number := r.number, theString := r.theString } ∧
        h1.read p = some r ∧
        (∀ x : Nat, h.live x → h1.read x = h.read x) ∧
        h1.freed = h.freed) := by
  refine ⟨by simp [Mem.CopyItems], fun hr => ?_⟩
  have hb := read_bounds h p r hr
  have hp0 : p ≠ 0 := by omega
  refine ⟨h.blocks.length + 1,
    (h.alloc { number := r.number, theString := r.theString }).2, ?_, by omega, by omega,
    read_none_of_gt h _ (by omega), read_alloc_new h _, ?_, ?_, rfl⟩
  · simp only [Mem.CopyItems, ne_eq, hp0, not_false_eq_true, if_true, hr,
      Option.bind_eq_bind, Option.some_bind, Option.pure_def]
    rfl
  · rw [read_alloc_old h _ p hb.2, hr]
  · intro x hx
    exact read_alloc_old h _ x (live_bounds h x hx).2

/-- C16 at the heap holding `(1, x)` and `(5, y)`: copying the second payload
gives a third record `(5, y)`. -/
theorem CopyItems_spec_witness :
    exampleHeap.read 2 = some { number := 5, theString := 200 } ∧
    ∃ (q : Nat) (h1 : Heap), Mem.CopyItems exampleHeap 2 = some (q, h1) ∧
      q ≠ 0 ∧ q ≠ 2 ∧ exampleHeap.read q = none ∧
      h1.read q = some { number := 5, theString := 200 } ∧
      h1.read 2 = some { number := 5, theString := 200 } ∧
      (∀ x : Nat, exampleHeap.live x → h1.read x = exampleHeap.read x) ∧
      h1.freed = exampleHeap.freed :=
  ⟨by decide, (CopyItems_spec exampleHeap 2 { number := 5, theString := 200 }).2 (by decide)⟩

/-- C17: on a list of live payloads `CopyList` returns a list of as many
payloads, each a block allocated by the call, live, holding the record of the
payload it copies and different from every payload of the input; running
`DestroyList` on the copy releases the payloads of the copy and no other, and
every payload of the input stays live with the record it had. -/
theorem CopyList_independent (h : Heap) (S : List Nat) (hS : ∀ p ∈ S, h.live p) :
    ∃ (C : List Nat) (h1 : Heap), Mem.CopyList h S = some (C, h1) ∧
      C.length = S.length ∧ C.Nodup ∧
      (∀ c ∈ C, h.blocks.length < c ∧ h1.live c ∧ c ∉ S) ∧
      (∀ (i : Nat) (hi : i < S.length) (hc : i < C.length), h1.read C[i] = h.read S[i]) ∧
      (∀ p ∈ S, h1.read p = h.read p) ∧
      ∃ (r : Int) (h2 : Heap), Mem.DestroyList h1 C = some (r, h2) ∧
        h2.freed = h1.freed ++ C ∧
        (∀ p ∈ S, p ∉ C ∧ h2.live p ∧ h2.read p = h.read p) := by
  obtain ⟨h1, hrun, -, -, hold, hnew⟩ := CopyList_run h S hS
  have hle : ∀ p ∈ S, p ≤ h.blocks.length := fun p hp => (live_bounds h p (hS p hp)).2
  have hC : ∀ c ∈ List.range' (h.blocks.length + 1) S.length,
      h.blocks.length < c ∧ h1.live c ∧ c ∉ S := by
    intro c hc
    obtain ⟨hc1, hc2⟩ := List.mem_range'_1.mp hc
    refine ⟨by omega, ?_, fun hcs => by have := hle c hcs; omega⟩
    have hi : c - (h.blocks.length + 1) < S.length := by omega
    have hidx : c = h.blocks.length + 1 + (c - (h.blocks.length + 1)) := by omega
    unfold Heap.live
    rw [hidx, hnew _ hi]
    exact hS _ (List.getElem_mem hi)
  have h0 : 0 ∉ List.range' (h.blocks.length + 1) S.length := by
    intro hc
    have := (hC 0 hc).1
    omega
  have hpb : payloadsBeforeNull (List.range' (h.blocks.length + 1) S.length) =
      List.range' (h.blocks.length + 1) S.length := payloadsBeforeNull_eq_self _ h0
  have hnd : (List.range' (h.blocks.length + 1) S.length).Nodup := List.nodup_range' _ _
  obtain ⟨h2, hdrun, hfr2, -, -, hkeep⟩ :=
    DestroyList_run h1 (List.range' (h.blocks.length + 1) S.length)
      (fun c hc => (hC c (hpb ▸ hc)).2.1) (hpb.symm ▸ hnd)
  rw [hpb] at hfr2 hkeep
  refine ⟨_, h1, hrun, by simp, hnd, hC, ?_, fun p hp => hold p (hle p hp), _, h2, hdrun,
    hfr2, ?_⟩
  · intro i hi hc
    simp only [List.getElem_range', Nat.one_mul]
    exact hnew i hi
  · intro p hp
    have hpC : p ∉ List.range' (h.blocks.length + 1) S.length := by
      intro hc
      have := (hC p hc).1
      have := hle p hp
      omega
    have hread : h2.read p = h.read p := by rw [hkeep p hpC, hold p (hle p hp)]
    refine ⟨hpC, ?_, hread⟩
    unfold Heap.live
    rw [hread]
    exact hS p hp

/-- C17 at the heap holding `(1, x)` and `(5, y)` and the list of these two
payloads. -/
theorem CopyList_independent_witness :
    (∀ p ∈ [1, 2], exampleHeap.live p) ∧
    ∃ (C : List Nat) (h1 : Heap), Mem.CopyList exampleHeap [1, 2] = some (C, h1) ∧
      C.length = 2 ∧
      ∃ (r : Int) (h2 : Heap), Mem.DestroyList h1 C = some (r, h2) ∧
        h2.freed = h1.freed ++ C ∧
        h2.read 1 = some { number := 1, theString := 100 } ∧
        h2.read 2 = some { number := 5, theString := 200 } := by
  have hl : ∀ p ∈ [1, 2], exampleHeap.live p := by decide
  obtain ⟨C, h1, hrun, hlen, -, -, -, -, r, h2, hd, hfr, hS⟩ :=
    CopyList_independent exampleHeap [1, 2] hl
  exact ⟨hl, C, h1, hrun, hlen, r, h2, hd, hfr,
    (hS 1 (by decide)).2.2.trans (by decide), (hS 2 (by decide)).2.2.trans (by decide)⟩

end UserDefined
